import Mathlib

/-!
Verification of the Team & Pull-Request Lifecycle Engine
(pr-reviewer-assignment-service).

The repository layer talks to PostgreSQL; we embed the database as an
explicit state (`DB`) holding the four tables created by
`internal/storage/schema` and translate each repository / service
operation into a pure state-passing function.  `ORDER BY random()`
queries are embedded by passing the randomly-ordered result list as an
explicit parameter; theorems that depend on it assume the parameter is
a permutation of the rows the SQL query would return.  Timestamps
(`time.Now()`) are abstract `Nat` clock values passed as parameters.
Operations return `(DB, Except Err α)`: the Go code runs every
multi-row mutation inside `withTx`, so an error leaves the state
unchanged.
-/

deriving instance DecidableEq for Except

namespace PRService

/-- Pull request status, from internal/domain (OPEN / MERGED). -/
inductive PullRequestStatus where
  | opened
  | merged
deriving DecidableEq

/-- A row of the users table (domain.User). -/
structure User where
  id : String
  username : String
  teamName : String
  isActive : Bool
deriving DecidableEq

/-- domain.Team: a team name with its hydrated member list. -/
structure Team where
  name : String
  members : List User
deriving DecidableEq

/-- A row of the pull_requests table (no reviewer list). -/
structure PullRequestRow where
  id : String
  name : String
  authorID : String
  status : PullRequestStatus
  createdAt : Nat
  mergedAt : Option Nat
deriving DecidableEq

/-- domain.PullRequest: a hydrated pull request including its reviewer list. -/
structure PullRequest where
  id : String
  name : String
  authorID : String
  status : PullRequestStatus
  assignedReviewers : List String
  createdAt : Nat
  mergedAt : Option Nat
deriving DecidableEq

/-- domain error values, plus the two non-domain failure shapes the code
can produce: a storage uniqueness violation that is not mapped to a
domain error, and the service layer's validation errors (errors.New). -/
inductive Err where
  | teamExists
  | prExists
  | userNotFound
  | teamNotFound
  | prNotFound
  | prMerged
  | notAssigned
  | noCandidate
  | uniqueViolation
  | validation (msg : String)
deriving DecidableEq

/-- The database state: the four tables of internal/storage/schema.
Reviewer assignment edges are (pull_request_id, reviewer_id) pairs with
a composite primary key. -/
structure DB where
  teams : List String
  users : List User
  pull_requests : List PullRequestRow
  pull_request_reviewers : List (String × String)
deriving DecidableEq

/-- Lexicographic string order on code points (SQL ORDER BY ... ASC).
String.le itself does not reduce in the kernel, so we compare the
underlying character lists. -/
def strLe (a b : String) : Bool := a == b || decide (a.data < b.data)

/-- Insert a string into a sorted list (helper for ORDER BY reviewer_id). -/
def insertStr (x : String) : List String → List String
  | [] => [x]
  | y :: ys => if strLe x y then x :: y :: ys else y :: insertStr x ys

/-- Insertion sort on strings: the ORDER BY reviewer_id clause. -/
def sortStrings : List String → List String
  | [] => []
  | x :: xs => insertStr x (sortStrings xs)

/-- Insert a user into a list sorted by username (ORDER BY username ASC). -/
def insertUser (u : User) : List User → List User
  | [] => [u]
  | v :: vs => if strLe u.username v.username then u :: v :: vs else v :: insertUser u vs

/-- Insertion sort of users by username (ORDER BY username ASC). -/
def sortUsers : List User → List User
  | [] => []
  | u :: us => insertUser u (sortUsers us)

/-- strings.TrimSpace, embedded on the character list (String.trim
itself does not reduce in the kernel). -/
def trimSpace (s : String) : String :=
  ⟨((s.data.dropWhile Char.isWhitespace).reverse.dropWhile Char.isWhitespace).reverse⟩

namespace Repository

/-- getUser: SELECT ... FROM users WHERE user_id = $1. -/
def getUser (db : DB) (userID : String) : Except Err User :=
  match db.users.find? (fun u => u.id == userID) with
  | none => .error .userNotFound
  | some u => .ok u

/-- The reviewer_id column values of the assignment edges of one PR, in
table order (not yet sorted). -/
def reviewersOf (db : DB) (prID : String) : List String :=
  (db.pull_request_reviewers.filter (fun e => e.1 == prID)).map (fun e => e.2)

/-- loadPullRequest: load a pull_requests row and hydrate its reviewer
list, ORDER BY reviewer_id. -/
def loadPullRequest (db : DB) (prID : String) : Except Err PullRequest :=
  match db.pull_requests.find? (fun r => r.id == prID) with
  | none => .error .prNotFound
  | some row =>
      .ok { id := row.id, name := row.name, authorID := row.authorID,
            status := row.status,
            assignedReviewers := sortStrings (reviewersOf db prID),
            createdAt := row.createdAt, mergedAt := row.mergedAt }

/-- GetPullRequest delegates to loadPullRequest. -/
def GetPullRequest (db : DB) (prID : String) : Except Err PullRequest :=
  loadPullRequest db prID

/-- Upsert one member row: INSERT ... ON CONFLICT (user_id) DO UPDATE
SET username, team_name, is_active. -/
def upsertUser (db : DB) (m : User) (teamName : String) : DB :=
  if db.users.any (fun u => u.id == m.id) then
    { db with users := db.users.map (fun u =>
        if u.id == m.id then
          { u with username := m.username, teamName := teamName, isActive := m.isActive }
        else u) }
  else
    { db with users := db.users ++ [{ m with teamName := teamName }] }

/-- GetTeam: existence check on teams, then members ORDER BY username ASC. -/
def GetTeam (db : DB) (teamName : String) : Except Err Team :=
  if db.teams.contains teamName then
    .ok { name := teamName,
          members := sortUsers (db.users.filter (fun u => u.teamName == teamName)) }
  else
    .error .teamNotFound

/-- CreateTeam: INSERT INTO teams (TeamExists on uniqueness conflict),
then upsert every member, all in one transaction; returns GetTeam. -/
def CreateTeam (db : DB) (team : Team) : DB × Except Err Team :=
  if db.teams.contains team.name then
    (db, .error .teamExists)
  else
    let db1 : DB := { db with teams := db.teams ++ [team.name] }
    let db2 : DB := team.members.foldl (fun d m => upsertUser d m team.name) db1
    (db2, GetTeam db2 team.name)

/-- SetUserActivity: UPDATE users SET is_active WHERE user_id RETURNING *. -/
def SetUserActivity (db : DB) (userID : String) (isActive : Bool) : DB × Except Err User :=
  match db.users.find? (fun u => u.id == userID) with
  | none => (db, .error .userNotFound)
  | some u =>
      ({ db with users := db.users.map (fun v =>
           if v.id == userID then { v with isActive := isActive } else v) },
       .ok { u with isActive := isActive })

/-- The reviewer-selection query of CreatePullRequest:
SELECT user_id FROM users WHERE team_name = $1 AND is_active AND
user_id <> $2 (before ORDER BY random() LIMIT 2). -/
def eligibleReviewers (db : DB) (teamName authorID : String) : List String :=
  (db.users.filter (fun u => u.teamName == teamName && u.isActive && u.id != authorID)).map
    (fun u => u.id)

/-- Insert assignment edges one by one; a duplicate composite key is a
uniqueness violation that aborts the transaction. -/
def insertEdges (edges : List (String × String)) (prID : String) :
    List String → Except Err (List (String × String))
  | [] => .ok edges
  | r :: rs =>
      if edges.contains (prID, r) then .error .uniqueViolation
      else insertEdges (edges ++ [(prID, r)]) prID rs

/-- CreatePullRequest: resolve the author, run the reviewer-selection
query (`sel` is its randomly-ordered result), LIMIT 2, then insert the
PR row and its edges transactionally.  PRExists on id conflict. -/
def CreatePullRequest (db : DB) (id name authorID : String)
    (sel : List String) (now : Nat) : DB × Except Err PullRequest :=
  match getUser db authorID with
  | .error e => (db, .error e)
  | .ok author =>
    if author.teamName = "" then (db, .error .teamNotFound)
    else
      let reviewerIDs := sel.take 2
      if (db.pull_requests.find? (fun r => r.id == id)).isSome then
        (db, .error .prExists)
      else
        match insertEdges db.pull_request_reviewers id reviewerIDs with
        | .error e => (db, .error e)
        | .ok edges1 =>
            let row : PullRequestRow :=
              { id := id, name := name, authorID := authorID,
                status := .opened, createdAt := now, mergedAt := none }
            ({ db with pull_requests := db.pull_requests ++ [row],
                       pull_request_reviewers := edges1 },
             .ok { id := id, name := name, authorID := authorID,
                   status := .opened, assignedReviewers := reviewerIDs,
                   createdAt := now, mergedAt := none })

/-- MergePullRequest: load; no-op if already merged; otherwise set
status=MERGED and merged_at=now in one transaction. -/
def MergePullRequest (db : DB) (prID : String) (now : Nat) : DB × Except Err PullRequest :=
  match loadPullRequest db prID with
  | .error e => (db, .error e)
  | .ok pr =>
    if pr.status = .merged then (db, .ok pr)
    else
      ({ db with pull_requests := db.pull_requests.map (fun r =>
           if r.id == prID then { r with status := .merged, mergedAt := some now } else r) },
       .ok { pr with status := .merged, mergedAt := some now })

/-- The candidate query of ReassignReviewer: active members of the old
reviewer's team excluding the old reviewer and the PR author (before
ORDER BY random()). -/
def reassignPool (db : DB) (teamName oldReviewerID authorID : String) : List String :=
  (db.users.filter (fun u =>
     u.teamName == teamName && u.isActive && u.id != oldReviewerID && u.id != authorID)).map
    (fun u => u.id)

/-- The read phase of ReassignReviewer: everything before the
transaction.  `cand` is the randomly-ordered candidate query result.
Returns the loaded PR and the chosen replacement id. -/
def reassignDecide (db : DB) (prID oldReviewerID : String)
    (cand : List String) : Except Err (PullRequest × String) :=
  match loadPullRequest db prID with
  | .error e => .error e
  | .ok pr =>
    if pr.status = .merged then .error .prMerged
    else if !(pr.assignedReviewers.contains oldReviewerID) then .error .notAssigned
    else
      match getUser db oldReviewerID with
      | .error e => .error e
      | .ok reviewer =>
        if reviewer.teamName = "" then .error .teamNotFound
        else if (cand.filter (fun c => !(pr.assignedReviewers.contains c))).headD "" = "" then
          .error .noCandidate
        else .ok (pr, (cand.filter (fun c => !(pr.assignedReviewers.contains c))).headD "")

/-- The write phase of ReassignReviewer: the transaction that deletes
the (pr, old) edge and inserts the (pr, replacement) edge.  The delete
matches zero or more rows (never an error); the insert hits the
composite primary key. -/
def reassignApply (db : DB) (prID oldReviewerID replacement : String) :
    DB × Except Err Unit :=
  if (db.pull_request_reviewers.filter
      (fun e => !(e.1 == prID && e.2 == oldReviewerID))).contains (prID, replacement) then
    (db, .error .uniqueViolation)
  else
    ({ db with pull_request_reviewers :=
        (db.pull_request_reviewers.filter
          (fun e => !(e.1 == prID && e.2 == oldReviewerID))) ++ [(prID, replacement)] },
     .ok ())

/-- ReassignReviewer: unguarded read phase, then the transaction, then
a reload of the updated PR — exactly the three stages of the Go code. -/
def ReassignReviewer (db : DB) (prID oldReviewerID : String)
    (cand : List String) : DB × Except Err (PullRequest × String) :=
  match reassignDecide db prID oldReviewerID cand with
  | .error e => (db, .error e)
  | .ok (_, replacement) =>
    match reassignApply db prID oldReviewerID replacement with
    | (db1, .error e) => (db1, .error e)
    | (db1, .ok ()) =>
      match loadPullRequest db1 prID with
      | .error e => (db1, .error e)
      | .ok updated => (db1, .ok (updated, replacement))

/-- PRStats result record. -/
structure PRStats where
  TotalPRs : Nat
  OpenPRs : Nat
  MergedPRs : Nat
  PRsWithReviewers : Nat
  PRsWithoutReviewers : Nat
deriving DecidableEq

/-- Whether a PR has at least one assignment edge (the EXISTS subquery). -/
def hasReviewer (db : DB) (prID : String) : Bool :=
  db.pull_request_reviewers.any (fun e => e.1 == prID)

/-- GetPRStats: the five FILTERed counts over pull_requests. -/
def GetPRStats (db : DB) : PRStats :=
  { TotalPRs := db.pull_requests.length
    OpenPRs := (db.pull_requests.filter (fun r => r.status == .opened)).length
    MergedPRs := (db.pull_requests.filter (fun r => r.status == .merged)).length
    PRsWithReviewers := (db.pull_requests.filter (fun r => hasReviewer db r.id)).length
    PRsWithoutReviewers := (db.pull_requests.filter (fun r => !hasReviewer db r.id)).length }

end Repository

namespace Service

open Repository

/-- service.CreateTeam: rejects an empty member list, then a blank
name, before delegating to the repository. -/
def CreateTeam (db : DB) (team : Team) : DB × Except Err Team :=
  if team.members.length = 0 then
    (db, .error (.validation "team must have at least one member"))
  else if trimSpace team.name = "" then
    (db, .error (.validation "team name is required"))
  else Repository.CreateTeam db team

/-- service.MergePullRequest: blank-id validation, then the repository
merge; if the result is already MERGED it is returned as-is, otherwise
the repository merge is called a second time. -/
def MergePullRequest (db : DB) (id : String) (now now2 : Nat) : DB × Except Err PullRequest :=
  if trimSpace id = "" then
    (db, .error (.validation "pull request ID is required"))
  else
    match Repository.MergePullRequest db id now with
    | (db1, .error e) => (db1, .error e)
    | (db1, .ok pr) =>
      if pr.status = .merged then (db1, .ok pr)
      else Repository.MergePullRequest db1 id now2

end Service

end PRService


/-! ## Basic lemmas about the sorting and edge helpers -/

namespace PRService

theorem insertStr_perm (x : String) (l : List String) : (insertStr x l).Perm (x :: l) := by
  induction l with
  | nil => simp [insertStr]
  | cons y ys ih =>
    by_cases h : strLe x y
    · simp [insertStr, h]
    · simp only [insertStr, h, if_neg, Bool.false_eq_true, not_false_eq_true, ite_false]
      exact (List.Perm.cons y ih).trans (List.Perm.swap x y ys)

theorem sortStrings_perm (l : List String) : (sortStrings l).Perm l := by
  induction l with
  | nil => simp [sortStrings]
  | cons x xs ih =>
    exact (insertStr_perm x (sortStrings xs)).trans (List.Perm.cons x ih)

theorem mem_sortStrings {a : String} {l : List String} : a ∈ sortStrings l ↔ a ∈ l :=
  (sortStrings_perm l).mem_iff

theorem sortStrings_nodup {l : List String} (h : l.Nodup) : (sortStrings l).Nodup :=
  (sortStrings_perm l).nodup_iff.mpr h

theorem length_sortStrings (l : List String) : (sortStrings l).length = l.length :=
  (sortStrings_perm l).length_eq

theorem filter_not_partition {α : Type} (l : List α) (p : α → Bool) :
    (l.filter p).length + (l.filter (fun a => !p a)).length = l.length := by
  induction l with
  | nil => rfl
  | cons x xs ih =>
    by_cases h : p x
    · simp only [List.filter, h, Bool.not_true]
      simpa using by omega
    · have hb : p x = false := by simpa using h
      simp only [List.filter, hb, Bool.not_false]
      simpa using by omega

end PRService

/-! ## State invariant and reachability -/

namespace PRService

open Repository

/-- The per-PR reviewer invariant: at most two assignment edges, no
duplicate reviewer, and never the author. -/
def rowReviewersOK (db : DB) (row : PullRequestRow) : Prop :=
  (reviewersOf db row.id).length ≤ 2 ∧ (reviewersOf db row.id).Nodup ∧
    row.authorID ∉ reviewersOf db row.id

/-- The full state invariant: PR ids are unique, every assignment edge
points at an existing PR row, and every PR row satisfies the reviewer
invariant. -/
def Inv (db : DB) : Prop :=
  (db.pull_requests.map (fun r => r.id)).Nodup ∧
  (∀ e ∈ db.pull_request_reviewers, ∃ row ∈ db.pull_requests, row.id = e.1) ∧
  (∀ row ∈ db.pull_requests, rowReviewersOK db row)

/-- The selection list passed to CreatePullRequest is a legitimate
outcome of the ORDER BY random() query: a permutation of the eligible
reviewer rows for the author that the database resolves. -/
def createSelValid (db : DB) (authorID : String) (sel : List String) : Prop :=
  ∀ u, db.users.find? (fun v => v.id == authorID) = some u →
    sel.Perm (eligibleReviewers db u.teamName authorID)

/-- The candidate list passed to ReassignReviewer is a legitimate
outcome of its ORDER BY random() query: a permutation of the candidate
rows for the resolved old reviewer and the PR's author. -/
def reassignCandValid (db : DB) (prID oldReviewerID : String) (cand : List String) : Prop :=
  ∀ row rv, db.pull_requests.find? (fun r => r.id == prID) = some row →
    db.users.find? (fun v => v.id == oldReviewerID) = some rv →
    cand.Perm (reassignPool db rv.teamName oldReviewerID row.authorID)

/-- States reachable from a PR-free database by any sequence of the
mutation operations, with each random query result constrained to be a
permutation of the rows the query selects. -/
inductive Reachable : DB → Prop where
  | init (teams : List String) (users : List User) :
      Reachable { teams := teams, users := users,
                  pull_requests := [], pull_request_reviewers := [] }
  | createTeam {db : DB} (team : Team) (h : Reachable db) :
      Reachable (Repository.CreateTeam db team).1
  | setActivity {db : DB} (userID : String) (isActive : Bool) (h : Reachable db) :
      Reachable (Repository.SetUserActivity db userID isActive).1
  | createPR {db : DB} (id name authorID : String) (sel : List String) (now : Nat)
      (h : Reachable db) (hsel : createSelValid db authorID sel) :
      Reachable (Repository.CreatePullRequest db id name authorID sel now).1
  | mergePR {db : DB} (prID : String) (now : Nat) (h : Reachable db) :
      Reachable (Repository.MergePullRequest db prID now).1
  | reassignPR {db : DB} (prID oldReviewerID : String) (cand : List String)
      (h : Reachable db) (hcand : reassignCandValid db prID oldReviewerID cand) :
      Reachable (Repository.ReassignReviewer db prID oldReviewerID cand).1

/-- The invariant only looks at the pull_requests and edge tables. -/
theorem Inv_of_tables_eq {db db' : DB}
    (hpr : db'.pull_requests = db.pull_requests)
    (hrv : db'.pull_request_reviewers = db.pull_request_reviewers)
    (h : Inv db) : Inv db' := by
  have hrev : ∀ prID, reviewersOf db' prID = reviewersOf db prID := by
    intro prID
    simp [reviewersOf, hrv]
  obtain ⟨h1, h2, h3⟩ := h
  refine ⟨by rw [hpr]; exact h1, ?_, ?_⟩
  · intro e he
    rw [hpr]
    exact h2 e (hrv ▸ he)
  · intro row hrow
    have := h3 row (hpr ▸ hrow)
    unfold rowReviewersOK at this ⊢
    rw [hrev]
    exact this

theorem upsertUser_pull_requests (db : DB) (m : User) (t : String) :
    (upsertUser db m t).pull_requests = db.pull_requests := by
  unfold upsertUser
  split <;> rfl

theorem upsertUser_edges (db : DB) (m : User) (t : String) :
    (upsertUser db m t).pull_request_reviewers = db.pull_request_reviewers := by
  unfold upsertUser
  split <;> rfl

theorem foldl_upsert_pull_requests (t : String) (members : List User) (db : DB) :
    (members.foldl (fun d m => upsertUser d m t) db).pull_requests = db.pull_requests := by
  induction members generalizing db with
  | nil => rfl
  | cons m ms ih =>
    simp only [List.foldl]
    rw [ih, upsertUser_pull_requests]

theorem foldl_upsert_edges (t : String) (members : List User) (db : DB) :
    (members.foldl (fun d m => upsertUser d m t) db).pull_request_reviewers =
      db.pull_request_reviewers := by
  induction members generalizing db with
  | nil => rfl
  | cons m ms ih =>
    simp only [List.foldl]
    rw [ih, upsertUser_edges]

theorem CreateTeam_pull_requests (db : DB) (team : Team) :
    (Repository.CreateTeam db team).1.pull_requests = db.pull_requests := by
  unfold Repository.CreateTeam
  split
  · rfl
  · simp only
    rw [foldl_upsert_pull_requests]

theorem CreateTeam_edges (db : DB) (team : Team) :
    (Repository.CreateTeam db team).1.pull_request_reviewers = db.pull_request_reviewers := by
  unfold Repository.CreateTeam
  split
  · rfl
  · simp only
    rw [foldl_upsert_edges]

theorem SetUserActivity_pull_requests (db : DB) (userID : String) (isActive : Bool) :
    (Repository.SetUserActivity db userID isActive).1.pull_requests = db.pull_requests := by
  unfold Repository.SetUserActivity
  split <;> rfl

theorem SetUserActivity_edges (db : DB) (userID : String) (isActive : Bool) :
    (Repository.SetUserActivity db userID isActive).1.pull_request_reviewers =
      db.pull_request_reviewers := by
  unfold Repository.SetUserActivity
  split <;> rfl

end PRService

/-! ## Inversion lemmas for CreatePullRequest -/

namespace PRService

open Repository

theorem insertEdges_ok {prID : String} {rids : List String}
    {edges out : List (String × String)}
    (h : insertEdges edges prID rids = .ok out) :
    out = edges ++ rids.map (fun r => (prID, r)) ∧
      rids.Nodup ∧ ∀ r ∈ rids, (prID, r) ∉ edges := by
  induction rids generalizing edges with
  | nil =>
    simp only [insertEdges, Except.ok.injEq] at h
    simp [h]
  | cons r rs ih =>
    unfold insertEdges at h
    by_cases hc : edges.contains (prID, r)
    · rw [if_pos hc] at h
      simp at h
    · rw [if_neg hc] at h
      obtain ⟨ho, hnd, hni⟩ := ih h
      have hcm : (prID, r) ∉ edges := by simpa using hc
      have hrs : ∀ x ∈ rs, (prID, x) ∉ edges ∧ x ≠ r := by
        intro x hx
        have := hni x hx
        simp only [List.mem_append, List.mem_singleton, not_or] at this
        refine ⟨this.1, ?_⟩
        intro hxr
        exact this.2 (by rw [hxr])
      refine ⟨?_, ?_, ?_⟩
      · rw [ho]
        simp
      · refine List.nodup_cons.mpr ⟨?_, hnd⟩
        intro hmem
        exact (hrs r hmem).2 rfl
      · intro x hx
        rcases List.mem_cons.mp hx with hx1 | hx2
        · rw [hx1]; exact hcm
        · exact (hrs x hx2).1

theorem mem_eligibleReviewers {db : DB} {t a x : String}
    (h : x ∈ eligibleReviewers db t a) :
    ∃ u ∈ db.users, u.id = x ∧ u.teamName = t ∧ u.isActive = true ∧ x ≠ a := by
  unfold eligibleReviewers at h
  obtain ⟨u, hu, rfl⟩ := List.mem_map.mp h
  obtain ⟨hmem, hcond⟩ := List.mem_filter.mp hu
  simp only [Bool.and_eq_true, beq_iff_eq, bne_iff_ne, ne_eq] at hcond
  exact ⟨u, hmem, rfl, hcond.1.1, hcond.1.2, hcond.2⟩

theorem mem_reassignPool {db : DB} {t old author x : String}
    (h : x ∈ reassignPool db t old author) :
    ∃ u ∈ db.users, u.id = x ∧ u.teamName = t ∧ u.isActive = true ∧
      x ≠ old ∧ x ≠ author := by
  unfold reassignPool at h
  obtain ⟨u, hu, rfl⟩ := List.mem_map.mp h
  obtain ⟨hmem, hcond⟩ := List.mem_filter.mp hu
  simp only [Bool.and_eq_true, beq_iff_eq, bne_iff_ne, ne_eq] at hcond
  exact ⟨u, hmem, rfl, hcond.1.1.1, hcond.1.1.2, hcond.1.2, hcond.2⟩

theorem CreatePullRequest_ok_inv {db db1 : DB} {id name authorID : String}
    {sel : List String} {now : Nat} {pr : PullRequest}
    (h : CreatePullRequest db id name authorID sel now = (db1, .ok pr)) :
    ∃ author, getUser db authorID = .ok author ∧ author.teamName ≠ "" ∧
      db.pull_requests.find? (fun r => r.id == id) = none ∧
      (∀ r ∈ sel.take 2, (id, r) ∉ db.pull_request_reviewers) ∧
      (sel.take 2).Nodup ∧
      db1.pull_requests = db.pull_requests ++
        [{ id := id, name := name, authorID := authorID, status := .opened,
           createdAt := now, mergedAt := none }] ∧
      db1.pull_request_reviewers =
        db.pull_request_reviewers ++ (sel.take 2).map (fun r => (id, r)) ∧
      db1.teams = db.teams ∧ db1.users = db.users ∧
      pr = { id := id, name := name, authorID := authorID, status := .opened,
             assignedReviewers := sel.take 2, createdAt := now, mergedAt := none } := by
  unfold CreatePullRequest at h
  cases hg : getUser db authorID with
  | error e => rw [hg] at h; simp at h
  | ok author =>
    rw [hg] at h
    simp only at h
    by_cases ht : author.teamName = ""
    · rw [if_pos ht] at h; simp at h
    · rw [if_neg ht] at h
      by_cases hex : (db.pull_requests.find? (fun r => r.id == id)).isSome
      · rw [if_pos hex] at h; simp at h
      · rw [if_neg hex] at h
        have hnone : db.pull_requests.find? (fun r => r.id == id) = none :=
          Option.not_isSome_iff_eq_none.mp hex
        cases hie : insertEdges db.pull_request_reviewers id (sel.take 2) with
        | error e => rw [hie] at h; simp at h
        | ok edges1 =>
          rw [hie] at h
          simp only [Prod.mk.injEq, Except.ok.injEq] at h
          obtain ⟨hdb1, hpr⟩ := h
          obtain ⟨hout, hnd, hnew⟩ := insertEdges_ok hie
          refine ⟨author, hg ▸ rfl, ht, hnone, hnew, hnd, ?_, ?_, ?_, ?_, hpr.symm⟩
          · rw [← hdb1]
          · rw [← hdb1]; exact hout
          · rw [← hdb1]
          · rw [← hdb1]

theorem CreatePullRequest_error_fst {db db1 : DB} {id name authorID : String}
    {sel : List String} {now : Nat} {e : Err}
    (h : CreatePullRequest db id name authorID sel now = (db1, .error e)) :
    db1 = db := by
  unfold CreatePullRequest at h
  cases hg : getUser db authorID with
  | error e2 => rw [hg] at h; simp only [Prod.mk.injEq] at h; exact h.1.symm
  | ok author =>
    rw [hg] at h
    simp only at h
    by_cases ht : author.teamName = ""
    · rw [if_pos ht] at h; simp only [Prod.mk.injEq] at h; exact h.1.symm
    · rw [if_neg ht] at h
      by_cases hex : (db.pull_requests.find? (fun r => r.id == id)).isSome
      · rw [if_pos hex] at h; simp only [Prod.mk.injEq] at h; exact h.1.symm
      · rw [if_neg hex] at h
        cases hie : insertEdges db.pull_request_reviewers id (sel.take 2) with
        | error e2 => rw [hie] at h; simp only [Prod.mk.injEq] at h; exact h.1.symm
        | ok edges1 => rw [hie] at h; simp at h

end PRService

/-! ## Invariant preservation: CreatePullRequest -/

namespace PRService

open Repository

theorem getUser_ok {db : DB} {uid : String} {u : User}
    (h : getUser db uid = .ok u) : db.users.find? (fun v => v.id == uid) = some u := by
  unfold getUser at h
  cases hf : db.users.find? (fun v => v.id == uid) with
  | none => rw [hf] at h; simp at h
  | some v =>
    rw [hf] at h
    simp only [Except.ok.injEq] at h
    rw [h]

theorem filter_fst_map_pair (rids : List String) (idv p : String) :
    (((rids.map (fun r => (idv, r))).filter (fun e => e.1 == p)).map (fun e => e.2)) =
      if idv = p then rids else [] := by
  induction rids with
  | nil => simp
  | cons r rs ih =>
    by_cases h : idv = p
    · subst h
      simp only [List.map_cons, List.filter_cons]
      simp [ih]
    · have hb : ((idv, r).1 == p) = false := by simpa using h
      simp only [List.map_cons, List.filter_cons]
      simp [hb, ih, h]

theorem reviewersOf_create {db db1 : DB} {idv : String} {rids : List String}
    (hrv : db1.pull_request_reviewers =
      db.pull_request_reviewers ++ rids.map (fun r => (idv, r))) (p : String) :
    reviewersOf db1 p = reviewersOf db p ++ (if idv = p then rids else []) := by
  unfold reviewersOf
  rw [hrv, List.filter_append, List.map_append, filter_fst_map_pair]

theorem reviewersOf_nil_of_no_edge {db : DB} {p : String}
    (h : ∀ e ∈ db.pull_request_reviewers, e.1 ≠ p) : reviewersOf db p = [] := by
  unfold reviewersOf
  have : db.pull_request_reviewers.filter (fun e => e.1 == p) = [] := by
    rw [List.filter_eq_nil_iff]
    intro e he
    simpa using h e he
  rw [this]
  rfl

theorem find?_id_none {prs : List PullRequestRow} {idv : String}
    (h : prs.find? (fun r => r.id == idv) = none) : ∀ row ∈ prs, row.id ≠ idv := by
  intro row hrow
  have := List.find?_eq_none.mp h row hrow
  simpa using this

theorem CreatePullRequest_preserves_Inv {db : DB} {id name authorID : String}
    {sel : List String} {now : Nat}
    (hInv : Inv db) (hsel : createSelValid db authorID sel) :
    Inv (CreatePullRequest db id name authorID sel now).1 := by
  cases hres : CreatePullRequest db id name authorID sel now with
  | mk db1 res =>
    cases res with
    | error e =>
      have hdb : db1 = db := CreatePullRequest_error_fst hres
      simpa [hdb] using hInv
    | ok pr =>
      obtain ⟨author, hg, ht, hnone, hnew, hnd, hprs, hrv, hteams, husers, hpr⟩ :=
        CreatePullRequest_ok_inv hres
      obtain ⟨hids, hedge, hok⟩ := hInv
      have hold : ∀ row ∈ db.pull_requests, row.id ≠ id := find?_id_none hnone
      have hstale : ∀ e ∈ db.pull_request_reviewers, e.1 ≠ id := by
        intro e he
        obtain ⟨row, hrow, hrid⟩ := hedge e he
        rw [← hrid]
        exact hold row hrow
      have hrevs := reviewersOf_create hrv
      have hrevnew : reviewersOf db1 id = sel.take 2 := by
        rw [hrevs id, reviewersOf_nil_of_no_edge hstale, if_pos rfl]
        rfl
      have hrevold : ∀ p, p ≠ id → reviewersOf db1 p = reviewersOf db p := by
        intro p hp
        rw [hrevs p, if_neg (fun hh => hp hh.symm)]
        simp
      have hsel2 : sel.Perm (eligibleReviewers db author.teamName authorID) :=
        hsel author (getUser_ok hg)
      refine ⟨?_, ?_, ?_⟩
      · rw [hprs, List.map_append]
        simp only [List.map_cons, List.map_nil]
        rw [List.nodup_append]
        refine ⟨hids, List.nodup_singleton id, ?_⟩
        intro x hx
        simp only [List.mem_singleton]
        obtain ⟨row, hrow, hrid⟩ := List.mem_map.mp hx
        rw [← hrid]
        exact hold row hrow
      · intro e he
        rw [hrv] at he
        rcases List.mem_append.mp he with h1 | h2
        · obtain ⟨row, hrow, hrid⟩ := hedge e h1
          exact ⟨row, by rw [hprs]; exact List.mem_append_left _ hrow, hrid⟩
        · obtain ⟨r, hr, hre⟩ := List.mem_map.mp h2
          refine ⟨{ id := id, name := name, authorID := authorID, status := .opened,
                    createdAt := now, mergedAt := none }, ?_, ?_⟩
          · rw [hprs]
            exact List.mem_append_right _ (List.mem_singleton_self _)
          · rw [← hre]
      · intro row hrow
        rw [hprs] at hrow
        rcases List.mem_append.mp hrow with h1 | h2
        · have hne : row.id ≠ id := hold row h1
          unfold rowReviewersOK
          rw [hrevold row.id hne]
          exact hok row h1
        · have hroweq := List.mem_singleton.mp h2
          unfold rowReviewersOK
          rw [hroweq]
          simp only
          rw [hrevnew]
          refine ⟨?_, hnd, ?_⟩
          · rw [List.length_take]
            exact min_le_left _ _
          · intro hmem
            have hsub : authorID ∈ sel := List.take_subset 2 sel hmem
            have := hsel2.mem_iff.mp hsub
            obtain ⟨u, hu, huid, hut, hua, hne⟩ := mem_eligibleReviewers this
            exact hne rfl

end PRService

/-! ## Inversion and invariant preservation: MergePullRequest -/

namespace PRService

open Repository

theorem loadPullRequest_ok_inv {db : DB} {prID : String} {pr : PullRequest}
    (h : loadPullRequest db prID = .ok pr) :
    ∃ row, db.pull_requests.find? (fun r => r.id == prID) = some row ∧
      pr = { id := row.id, name := row.name, authorID := row.authorID,
             status := row.status,
             assignedReviewers := sortStrings (reviewersOf db prID),
             createdAt := row.createdAt, mergedAt := row.mergedAt } := by
  unfold loadPullRequest at h
  cases hf : db.pull_requests.find? (fun r => r.id == prID) with
  | none => rw [hf] at h; simp at h
  | some row =>
    rw [hf] at h
    simp only [Except.ok.injEq] at h
    exact ⟨row, rfl, h.symm⟩

theorem loadPullRequest_of_find {db : DB} {prID : String} {row : PullRequestRow}
    (h : db.pull_requests.find? (fun r => r.id == prID) = some row) :
    loadPullRequest db prID =
      .ok { id := row.id, name := row.name, authorID := row.authorID,
            status := row.status,
            assignedReviewers := sortStrings (reviewersOf db prID),
            createdAt := row.createdAt, mergedAt := row.mergedAt } := by
  unfold loadPullRequest
  rw [h]

theorem merge_row_id (prID : String) (now : Nat) (r : PullRequestRow) :
    (if r.id == prID then
       { r with status := PullRequestStatus.merged, mergedAt := some now } else r).id = r.id := by
  by_cases h : r.id == prID <;> simp [h]

theorem merge_row_author (prID : String) (now : Nat) (r : PullRequestRow) :
    (if r.id == prID then
       { r with status := PullRequestStatus.merged, mergedAt := some now } else r).authorID =
      r.authorID := by
  by_cases h : r.id == prID <;> simp [h]

theorem MergePullRequest_fst_cases (db : DB) (prID : String) (now : Nat) :
    (MergePullRequest db prID now).1 = db ∨
      (MergePullRequest db prID now).1 =
        { db with pull_requests := db.pull_requests.map (fun r =>
            if r.id == prID then
              { r with status := PullRequestStatus.merged, mergedAt := some now } else r) } := by
  unfold MergePullRequest
  cases hl : loadPullRequest db prID with
  | error e => simp
  | ok pr =>
    by_cases hm : pr.status = .merged
    · simp [hm]
    · simp [hm]

theorem MergePullRequest_preserves_Inv {db : DB} {prID : String} {now : Nat}
    (hInv : Inv db) : Inv (MergePullRequest db prID now).1 := by
  rcases MergePullRequest_fst_cases db prID now with h | h
  · rw [h]; exact hInv
  · rw [h]
    obtain ⟨hids, hedge, hok⟩ := hInv
    refine ⟨?_, ?_, ?_⟩
    · simp only [List.map_map]
      have : ((fun r : PullRequestRow => r.id) ∘ (fun r =>
          if r.id == prID then
            { r with status := PullRequestStatus.merged, mergedAt := some now } else r)) =
          fun r : PullRequestRow => r.id := by
        funext r
        simp only [Function.comp_apply, merge_row_id]
      rw [this]
      exact hids
    · intro e he
      obtain ⟨row, hrow, hrid⟩ := hedge e he
      refine ⟨if row.id == prID then
          { row with status := PullRequestStatus.merged, mergedAt := some now } else row, ?_, ?_⟩
      · exact List.mem_map_of_mem _ hrow
      · rw [merge_row_id, hrid]
    · intro row' hrow'
      obtain ⟨row, hrow, hre⟩ := List.mem_map.mp hrow'
      have hre1 : row'.id = row.id := by rw [← hre, merge_row_id]
      have hre2 : row'.authorID = row.authorID := by rw [← hre, merge_row_author]
      have hold := hok row hrow
      unfold rowReviewersOK at hold ⊢
      have hrev : ∀ p, reviewersOf
          { db with pull_requests := db.pull_requests.map (fun r =>
              if r.id == prID then
                { r with status := PullRequestStatus.merged, mergedAt := some now } else r) } p =
            reviewersOf db p := by
        intro p
        unfold reviewersOf
        rfl
      rw [hrev, hre1, hre2]
      exact hold

end PRService

/-! ## Inversion and invariant preservation: ReassignReviewer -/

namespace PRService

open Repository

theorem headD_mem_of_ne {l : List String} {d r : String} (h : l.headD d = r) (hne : r ≠ d) :
    r ∈ l := by
  cases l with
  | nil =>
    simp only [List.headD] at h
    exact absurd h.symm hne
  | cons x xs =>
    simp only [List.headD] at h
    rw [← h]
    exact List.mem_cons_self x xs

theorem reassignDecide_ok_inv {db : DB} {prID old : String} {cand : List String}
    {pr : PullRequest} {repl : String}
    (h : reassignDecide db prID old cand = .ok (pr, repl)) :
    loadPullRequest db prID = .ok pr ∧ pr.status ≠ .merged ∧
      old ∈ pr.assignedReviewers ∧
      (∃ rv, getUser db old = .ok rv ∧ rv.teamName ≠ "") ∧
      repl ∈ cand ∧ repl ∉ pr.assignedReviewers ∧ repl ≠ "" := by
  unfold reassignDecide at h
  cases hl : loadPullRequest db prID with
  | error e => rw [hl] at h; simp at h
  | ok pr0 =>
    rw [hl] at h
    simp only at h
    by_cases hm : pr0.status = .merged
    · rw [if_pos hm] at h; simp at h
    · rw [if_neg hm] at h
      by_cases hc : pr0.assignedReviewers.contains old
      · rw [hc] at h
        simp only [Bool.not_true, Bool.false_eq_true, if_false] at h
        cases hg : getUser db old with
        | error e => rw [hg] at h; simp at h
        | ok rv =>
          rw [hg] at h
          simp only at h
          by_cases ht : rv.teamName = ""
          · rw [if_pos ht] at h; simp at h
          · rw [if_neg ht] at h
            by_cases hr : (cand.filter (fun c => !(pr0.assignedReviewers.contains c))).headD "" = ""
            · rw [if_pos hr] at h; simp at h
            · rw [if_neg hr] at h
              simp only [Except.ok.injEq, Prod.mk.injEq] at h
              obtain ⟨hpr, hrepl⟩ := h
              subst hpr
              have hrne : repl ≠ "" := fun he => hr (hrepl.trans he)
              have hmemf : repl ∈ cand.filter (fun c => !(pr0.assignedReviewers.contains c)) :=
                headD_mem_of_ne hrepl hrne
              obtain ⟨hmemc, hpred⟩ := List.mem_filter.mp hmemf
              refine ⟨rfl, hm, by simpa using hc, ⟨rv, rfl, ht⟩, hmemc, ?_, hrne⟩
              simpa using hpred
      · rw [Bool.not_eq_true] at hc
        rw [hc] at h
        simp at h

theorem reassignApply_ok_inv {db db1 : DB} {prID old repl : String}
    (h : reassignApply db prID old repl = (db1, .ok ())) :
    db1 = { db with pull_request_reviewers :=
      (db.pull_request_reviewers.filter (fun e => !(e.1 == prID && e.2 == old))) ++
        [(prID, repl)] } := by
  unfold reassignApply at h
  by_cases hc : (db.pull_request_reviewers.filter
      (fun e => !(e.1 == prID && e.2 == old))).contains (prID, repl)
  · rw [hc] at h; simp at h
  · rw [Bool.not_eq_true] at hc
    rw [hc] at h
    simp only [Bool.false_eq_true, if_false, Prod.mk.injEq] at h
    exact h.1.symm

theorem reassignApply_error_fst {db db1 : DB} {prID old repl : String} {e : Err}
    (h : reassignApply db prID old repl = (db1, .error e)) : db1 = db := by
  unfold reassignApply at h
  by_cases hc : (db.pull_request_reviewers.filter
      (fun e => !(e.1 == prID && e.2 == old))).contains (prID, repl)
  · rw [hc] at h
    simp only [if_true, Prod.mk.injEq] at h
    exact h.1.symm
  · rw [Bool.not_eq_true] at hc
    rw [hc] at h
    simp at h

theorem ReassignReviewer_ok_inv {db db1 : DB} {prID old : String} {cand : List String}
    {pr1 : PullRequest} {repl : String}
    (h : ReassignReviewer db prID old cand = (db1, .ok (pr1, repl))) :
    ∃ pr0, reassignDecide db prID old cand = .ok (pr0, repl) ∧
      reassignApply db prID old repl = (db1, .ok ()) ∧
      loadPullRequest db1 prID = .ok pr1 := by
  unfold ReassignReviewer at h
  cases hd : reassignDecide db prID old cand with
  | error e => rw [hd] at h; simp at h
  | ok v =>
    rw [hd] at h
    cases v with
    | mk pr0 repl0 =>
      simp only at h
      cases ha : reassignApply db prID old repl0 with
      | mk dba resa =>
        rw [ha] at h
        cases resa with
        | error e => simp at h
        | ok u =>
          cases u
          simp only at h
          cases hl : loadPullRequest dba prID with
          | error e => rw [hl] at h; simp at h
          | ok upd =>
            rw [hl] at h
            simp only [Prod.mk.injEq, Except.ok.injEq] at h
            obtain ⟨hdb, hupd, hrepl⟩ := h
            subst hdb
            subst hrepl
            exact ⟨pr0, rfl, ha, by rw [hl, hupd]⟩

end PRService


namespace PRService

open Repository

theorem filter_del_comm (edges : List (String × String)) (prID old : String) :
    ((edges.filter (fun e => !(e.1 == prID && e.2 == old))).filter
        (fun e => e.1 == prID)).map (fun e => e.2) =
      ((edges.filter (fun e => e.1 == prID)).map (fun e => e.2)).filter
        (fun c => !(c == old)) := by
  rw [List.filter_filter, List.filter_map, List.filter_filter]
  have hpred : edges.filter
      (fun a => (a.1 == prID) && !(a.1 == prID && a.2 == old)) =
      edges.filter
        (fun a => ((fun c => !(c == old)) ∘ (fun e : String × String => e.2)) a &&
          (a.1 == prID)) := by
    apply List.filter_congr
    intro a _
    cases h1 : (a.1 == prID) <;> cases h2 : (a.2 == old) <;>
      simp [h1, h2, Function.comp]
  rw [hpred]

theorem filter_del_other (edges : List (String × String)) (prID old p : String)
    (hp : p ≠ prID) :
    (edges.filter (fun e => !(e.1 == prID && e.2 == old))).filter (fun e => e.1 == p) =
      edges.filter (fun e => e.1 == p) := by
  rw [List.filter_filter]
  apply List.filter_congr
  intro a _
  cases h1 : (a.1 == p) <;> simp only [Bool.false_and, Bool.true_and]
  have : (a.1 == prID) = false := by
    have ha : a.1 = p := by simpa using h1
    simp only [beq_eq_false_iff_ne, ne_eq, ha]
    exact hp
  simp [this]

theorem reviewersOf_delete_insert {db db1 : DB} {prID old repl : String}
    (h : db1.pull_request_reviewers =
      (db.pull_request_reviewers.filter (fun e => !(e.1 == prID && e.2 == old))) ++
        [(prID, repl)]) :
    reviewersOf db1 prID = (reviewersOf db prID).filter (fun c => !(c == old)) ++ [repl] ∧
      ∀ p, p ≠ prID → reviewersOf db1 p = reviewersOf db p := by
  constructor
  · unfold reviewersOf
    rw [h, List.filter_append, List.map_append, filter_del_comm]
    congr 1
    simp
  · intro p hp
    unfold reviewersOf
    rw [h, List.filter_append, List.map_append, filter_del_other _ _ _ _ hp]
    have h1 : (([(prID, repl)] : List (String × String)).filter (fun e => e.1 == p)) = [] := by
      have hb : ((prID, repl).1 == p) = false := by
        simp only [beq_eq_false_iff_ne, ne_eq]
        exact fun hh => hp hh.symm
      simp [List.filter_cons, hb]
    rw [h1]
    simp

end PRService

namespace PRService

open Repository

theorem ReassignReviewer_error_inv {db db1 : DB} {prID old : String} {cand : List String}
    {e : Err} (h : ReassignReviewer db prID old cand = (db1, .error e)) :
    db1 = db ∨ ∃ pr0 repl, reassignDecide db prID old cand = .ok (pr0, repl) ∧
      reassignApply db prID old repl = (db1, .ok ()) := by
  unfold ReassignReviewer at h
  cases hd : reassignDecide db prID old cand with
  | error e2 =>
    rw [hd] at h
    simp only [Prod.mk.injEq] at h
    exact Or.inl h.1.symm
  | ok v =>
    rw [hd] at h
    cases v with
    | mk pr0 repl =>
      simp only at h
      cases ha : reassignApply db prID old repl with
      | mk dba resa =>
        rw [ha] at h
        cases resa with
        | error e2 =>
          simp only [Prod.mk.injEq] at h
          have : dba = db := reassignApply_error_fst ha
          rw [← h.1, this]
          exact Or.inl rfl
        | ok u =>
          cases u
          simp only at h
          cases hl : loadPullRequest dba prID with
          | error e2 =>
            rw [hl] at h
            simp only [Prod.mk.injEq] at h
            refine Or.inr ⟨pr0, repl, rfl, ?_⟩
            rw [← h.1]
            exact ha
          | ok upd =>
            rw [hl] at h
            simp at h

theorem Inv_after_apply {db db1 : DB} {prID old : String} {cand : List String}
    {pr0 : PullRequest} {repl : String}
    (hInv : Inv db) (hcand : reassignCandValid db prID old cand)
    (hd : reassignDecide db prID old cand = .ok (pr0, repl))
    (ha : reassignApply db prID old repl = (db1, .ok ())) : Inv db1 := by
  have hdba := reassignApply_ok_inv ha
  obtain ⟨hload, hm, hold, ⟨rv, hgu, htm⟩, hmemc, hnotasg, hrne⟩ :=
    reassignDecide_ok_inv hd
  obtain ⟨row0, hfind, hpr0⟩ := loadPullRequest_ok_inv hload
  have hrow0mem : row0 ∈ db.pull_requests := List.mem_of_find?_eq_some hfind
  have hrow0id : row0.id = prID := by
    have := List.find?_some hfind
    simpa using this
  have holdrev : old ∈ reviewersOf db prID := by
    rw [hpr0] at hold
    exact mem_sortStrings.mp hold
  have hreplrev : repl ∉ reviewersOf db prID := by
    rw [hpr0] at hnotasg
    exact fun hh => hnotasg (mem_sortStrings.mpr hh)
  have hperm : cand.Perm (reassignPool db rv.teamName old row0.authorID) :=
    hcand row0 rv hfind (getUser_ok hgu)
  have hreplpool : repl ∈ reassignPool db rv.teamName old row0.authorID :=
    hperm.mem_iff.mp hmemc
  obtain ⟨u2, hu2, hu2id, hu2t, hu2a, hreplold, hreplauthor⟩ :=
    mem_reassignPool hreplpool
  obtain ⟨hids, hedge, hok⟩ := hInv
  have hprs_same : db1.pull_requests = db.pull_requests := by
    rw [hdba]
  have hedges_eq : db1.pull_request_reviewers =
      (db.pull_request_reviewers.filter
        (fun e => !(e.1 == prID && e.2 == old))) ++ [(prID, repl)] := by
    rw [hdba]
  obtain ⟨hrevpr, hrevother⟩ := reviewersOf_delete_insert hedges_eq
  refine ⟨by rw [hprs_same]; exact hids, ?_, ?_⟩
  · intro e he
    rw [hedges_eq] at he
    rcases List.mem_append.mp he with h1 | h2
    · have : e ∈ db.pull_request_reviewers :=
        (List.filter_sublist _).subset h1
      obtain ⟨row, hrow, hrid⟩ := hedge e this
      exact ⟨row, by rw [hprs_same]; exact hrow, hrid⟩
    · have heq := List.mem_singleton.mp h2
      refine ⟨row0, by rw [hprs_same]; exact hrow0mem, ?_⟩
      rw [heq, hrow0id]
  · intro row hrow
    rw [hprs_same] at hrow
    unfold rowReviewersOK
    by_cases hid : row.id = prID
    · have hroweq : row = row0 :=
        List.inj_on_of_nodup_map hids hrow hrow0mem (by rw [hid, hrow0id])
      rw [hid, hrevpr]
      obtain ⟨hlen, hnd, hauthor⟩ := hok row0 hrow0mem
      rw [hrow0id] at hlen hnd hauthor
      have hfiltersub : (reviewersOf db prID).filter (fun c => !(c == old)) ⊆
          reviewersOf db prID := (List.filter_sublist _).subset
      have herase : (reviewersOf db prID).filter (fun c => !(c == old)) =
          (reviewersOf db prID).erase old := by
        rw [List.Nodup.erase_eq_filter hnd]
        exact List.filter_congr (by intro a ha; simp [bne])
      refine ⟨?_, ?_, ?_⟩
      · rw [List.length_append, herase]
        have := List.length_erase_add_one holdrev
        simp only [List.length_singleton]
        omega
      · rw [List.nodup_append]
        refine ⟨List.Nodup.filter _ hnd, List.nodup_singleton repl, ?_⟩
        intro x hx
        simp only [List.mem_singleton]
        intro hxr
        rw [hxr] at hx
        exact hreplrev (hfiltersub hx)
      · rw [hroweq]
        intro hmem
        rcases List.mem_append.mp hmem with h1 | h2
        · exact hauthor (hfiltersub h1)
        · exact hreplauthor (List.mem_singleton.mp h2).symm
    · rw [hrevother row.id hid]
      exact hok row hrow

theorem ReassignReviewer_preserves_Inv {db : DB} {prID old : String} {cand : List String}
    (hInv : Inv db) (hcand : reassignCandValid db prID old cand) :
    Inv (ReassignReviewer db prID old cand).1 := by
  cases hres : ReassignReviewer db prID old cand with
  | mk db1 res =>
    cases res with
    | error e =>
      rcases ReassignReviewer_error_inv hres with hdb | ⟨pr0, repl, hd, ha⟩
      · show Inv db1
        rw [hdb]
        exact hInv
      · exact Inv_after_apply hInv hcand hd ha
    | ok v =>
      cases v with
      | mk pr1 repl =>
        obtain ⟨pr0, hd, ha, hl⟩ := ReassignReviewer_ok_inv hres
        exact Inv_after_apply hInv hcand hd ha

end PRService

/-! ## The reachability invariant and claim C1 -/

namespace PRService

open Repository

theorem Reachable_Inv {db : DB} (h : Reachable db) : Inv db := by
  induction h with
  | init teams users => exact ⟨by simp, by simp, by simp⟩
  | createTeam team h ih =>
    exact Inv_of_tables_eq (CreateTeam_pull_requests _ _) (CreateTeam_edges _ _) ih
  | setActivity userID isActive h ih =>
    exact Inv_of_tables_eq (SetUserActivity_pull_requests _ _ _)
      (SetUserActivity_edges _ _ _) ih
  | createPR id name authorID sel now h hsel ih =>
    exact CreatePullRequest_preserves_Inv ih hsel
  | mergePR prID now h ih => exact MergePullRequest_preserves_Inv ih
  | reassignPR prID oldReviewerID cand h hcand ih =>
    exact ReassignReviewer_preserves_Inv ih hcand

/-- C1: for every PullRequest in a state reachable by any sequence of
the mutation operations, the assigned reviewer set (as returned by
loadPullRequest) has size at most 2 (so size 0, 1 or 2), contains no
duplicate reviewer id, and never contains the PR's author. -/
theorem reviewer_invariant_reachable {db : DB} (h : Reachable db) (prID : String)
    (pr : PullRequest) (hload : Repository.loadPullRequest db prID = .ok pr) :
    pr.assignedReviewers.length ≤ 2 ∧ pr.assignedReviewers.Nodup ∧
      pr.authorID ∉ pr.assignedReviewers := by
  obtain ⟨row, hfind, hpr⟩ := loadPullRequest_ok_inv hload
  obtain ⟨hids, hedge, hok⟩ := Reachable_Inv h
  have hrowmem := List.mem_of_find?_eq_some hfind
  have hrowid : row.id = prID := by simpa using List.find?_some hfind
  obtain ⟨hlen, hnd, hauthor⟩ := hok row hrowmem
  rw [hrowid] at hlen hnd hauthor
  rw [hpr]
  refine ⟨?_, ?_, ?_⟩
  · simp only
    rw [length_sortStrings]
    exact hlen
  · simp only
    exact sortStrings_nodup hnd
  · simp only
    intro hmem
    exact hauthor (mem_sortStrings.mp hmem)

/-- Concrete users for the C1 witness. -/
def aliceC1 : User := { id := "a", username := "alice", teamName := "t", isActive := true }

/-- Concrete users for the C1 witness. -/
def bobC1 : User := { id := "b", username := "bob", teamName := "t", isActive := true }

/-- Concrete two-user team used by the C1 witness. -/
def dbInitC1 : DB :=
  { teams := ["t"]
    users := [aliceC1, bobC1]
    pull_requests := []
    pull_request_reviewers := [] }

/-- The C1 witness state: one PR created in dbInitC1. -/
def dbC1 : DB := (Repository.CreatePullRequest dbInitC1 "p1" "nm" "a" ["b"] 0).1

/-- The PR loaded from dbC1 in the C1 witness. -/
def prC1 : PullRequest :=
  { id := "p1", name := "nm", authorID := "a", status := .opened,
    assignedReviewers := ["b"], createdAt := 0, mergedAt := none }

theorem reviewer_invariant_reachable_witness :
    Reachable dbC1 ∧ Repository.loadPullRequest dbC1 "p1" = .ok prC1 ∧
      (prC1.assignedReviewers.length ≤ 2 ∧ prC1.assignedReviewers.Nodup ∧
        prC1.authorID ∉ prC1.assignedReviewers) := by
  have hreach0 : Reachable dbInitC1 := Reachable.init ["t"] [aliceC1, bobC1]
  have hsel : createSelValid dbInitC1 "a" ["b"] := by
    intro u hu
    have hfa : dbInitC1.users.find? (fun v => v.id == "a") = some aliceC1 := by decide
    rw [hfa] at hu
    have hu2 : aliceC1 = u := Option.some.inj hu
    rw [← hu2]
    decide
  have hreach : Reachable dbC1 := Reachable.createPR "p1" "nm" "a" ["b"] 0 hreach0 hsel
  have hload : Repository.loadPullRequest dbC1 "p1" = .ok prC1 := by decide
  exact ⟨hreach, hload, reviewer_invariant_reachable hreach "p1" prC1 hload⟩

end PRService

/-! ## Claim C2: MergePullRequest is idempotent -/

namespace PRService

open Repository

theorem find?_merge_map (prs : List PullRequestRow) (prID : String) (now : Nat) :
    (prs.map (fun r => if r.id == prID then
        { r with status := PullRequestStatus.merged, mergedAt := some now } else r)).find?
      (fun r => r.id == prID) =
      (prs.find? (fun r => r.id == prID)).map (fun r =>
        if r.id == prID then
          { r with status := PullRequestStatus.merged, mergedAt := some now } else r) := by
  rw [List.find?_map]
  have hc : ((fun r : PullRequestRow => r.id == prID) ∘ (fun r =>
      if r.id == prID then
        { r with status := PullRequestStatus.merged, mergedAt := some now } else r)) =
      (fun r : PullRequestRow => r.id == prID) := by
    funext r
    by_cases h : r.id = prID
    · simp [h]
    · simp [h]
  rw [hc]

theorem MergePullRequest_ok_inv {db db1 : DB} {prID : String} {now : Nat}
    {pr1 : PullRequest} (h : MergePullRequest db prID now = (db1, .ok pr1)) :
    loadPullRequest db1 prID = .ok pr1 ∧ pr1.status = .merged := by
  unfold MergePullRequest at h
  cases hl : loadPullRequest db prID with
  | error e => rw [hl] at h; simp at h
  | ok pr =>
    rw [hl] at h
    simp only at h
    by_cases hm : pr.status = .merged
    · rw [if_pos hm] at h
      simp only [Prod.mk.injEq, Except.ok.injEq] at h
      obtain ⟨hdb, hpr⟩ := h
      subst hdb
      subst hpr
      exact ⟨hl, hm⟩
    · rw [if_neg hm] at h
      simp only [Prod.mk.injEq, Except.ok.injEq] at h
      obtain ⟨hdb, hpr⟩ := h
      obtain ⟨row, hfind, hprv⟩ := loadPullRequest_ok_inv hl
      have hrowid : row.id = prID := by
        have := List.find?_some hfind
        simpa using this
      constructor
      · unfold loadPullRequest
        rw [← hdb]
        simp only
        rw [find?_merge_map, hfind]
        simp only [Option.map_some']
        rw [if_pos (show (row.id == prID) = true by simpa using hrowid)]
        have hrev : reviewersOf
            { db with pull_requests := db.pull_requests.map (fun r =>
                if r.id == prID then
                  { r with status := PullRequestStatus.merged, mergedAt := some now }
                else r) } prID = reviewersOf db prID := by
          unfold reviewersOf
          rfl
        rw [hrev, ← hpr, hprv]
      · rw [← hpr]

/-- C2: MergePullRequest is idempotent.  First, when the PR is already
MERGED the call succeeds and returns the existing record with the state
unchanged (merged_at kept).  Second, after any successful merge, a
second merge at any later clock returns the identical record (same
merged_at) and leaves the state unchanged. -/
theorem mergePullRequest_idempotent (db : DB) (prID : String) (now now2 : Nat) :
    (∀ pr, Repository.loadPullRequest db prID = .ok pr → pr.status = .merged →
      Repository.MergePullRequest db prID now = (db, .ok pr)) ∧
    (∀ db1 pr1, Repository.MergePullRequest db prID now = (db1, .ok pr1) →
      Repository.MergePullRequest db1 prID now2 = (db1, .ok pr1)) := by
  constructor
  · intro pr hload hst
    simp [MergePullRequest, hload, hst]
  · intro db1 pr1 h
    obtain ⟨hl1, hst1⟩ := MergePullRequest_ok_inv h
    simp [MergePullRequest, hl1, hst1]

/-- The open PR row of the C2 witness. -/
def rowC2 : PullRequestRow :=
  { id := "p1", name := "nm", authorID := "a", status := .opened,
    createdAt := 0, mergedAt := none }

/-- The merged PR row of the C2 witness. -/
def rowC2m : PullRequestRow :=
  { id := "p1", name := "nm", authorID := "a", status := .merged,
    createdAt := 0, mergedAt := some 5 }

/-- The C2 witness state: one open PR with no reviewers. -/
def dbC2 : DB :=
  { teams := ["t"]
    users := [{ id := "a", username := "alice", teamName := "t", isActive := true }]
    pull_requests := [rowC2]
    pull_request_reviewers := [] }

/-- The C2 witness state after the first merge at clock 5. -/
def dbC2m : DB :=
  { teams := ["t"]
    users := [{ id := "a", username := "alice", teamName := "t", isActive := true }]
    pull_requests := [rowC2m]
    pull_request_reviewers := [] }

/-- The merged record returned by both merges in the C2 witness. -/
def prC2 : PullRequest :=
  { id := "p1", name := "nm", authorID := "a", status := .merged,
    assignedReviewers := [], createdAt := 0, mergedAt := some 5 }

theorem mergePullRequest_idempotent_witness :
    Repository.MergePullRequest dbC2 "p1" 5 = (dbC2m, .ok prC2) ∧
      Repository.MergePullRequest dbC2m "p1" 9 = (dbC2m, .ok prC2) ∧
      Repository.loadPullRequest dbC2m "p1" = .ok prC2 ∧
      Repository.MergePullRequest dbC2m "p1" 11 = (dbC2m, .ok prC2) := by
  refine ⟨by decide, ?_, by decide, ?_⟩
  · exact (mergePullRequest_idempotent dbC2 "p1" 5 9).2 dbC2m prC2 (by decide)
  · exact (mergePullRequest_idempotent dbC2m "p1" 11 13).1 prC2 (by decide) (by decide)

end PRService

/-! ## Claims C6 and C7: ReassignReviewer error paths -/

namespace PRService

open Repository

theorem getUser_of_find {db : DB} {uid : String} {rv : User}
    (h : db.users.find? (fun v => v.id == uid) = some rv) :
    getUser db uid = .ok rv := by
  unfold getUser
  rw [h]

/-- C6: reassigning any reviewer on a MERGED pull request fails with
PRMerged and leaves the whole state unchanged. -/
theorem reassign_on_merged_fails {db : DB} {prID old : String} {cand : List String}
    {row : PullRequestRow}
    (hfind : db.pull_requests.find? (fun r => r.id == prID) = some row)
    (hm : row.status = .merged) :
    Repository.ReassignReviewer db prID old cand = (db, .error .prMerged) := by
  have hload := loadPullRequest_of_find hfind
  simp [ReassignReviewer, reassignDecide, hload, hm]

/-- The merged PR state of the C6 witness. -/
def dbC6 : DB :=
  { teams := ["t"]
    users := [{ id := "a", username := "alice", teamName := "t", isActive := true },
              { id := "b", username := "bob", teamName := "t", isActive := true },
              { id := "c", username := "carol", teamName := "t", isActive := true }]
    pull_requests := [{ id := "p1", name := "nm", authorID := "a",
                        status := .merged, createdAt := 0, mergedAt := some 3 }]
    pull_request_reviewers := [("p1", "b")] }

/-- The merged row of the C6 witness. -/
def rowC6 : PullRequestRow :=
  { id := "p1", name := "nm", authorID := "a", status := .merged,
    createdAt := 0, mergedAt := some 3 }

theorem reassign_on_merged_fails_witness :
    dbC6.pull_requests.find? (fun r => r.id == "p1") = some rowC6 ∧
      rowC6.status = .merged ∧
      Repository.ReassignReviewer dbC6 "p1" "b" ["c"] = (dbC6, .error .prMerged) :=
  ⟨by decide, by decide,
    @reassign_on_merged_fails dbC6 "p1" "b" ["c"] rowC6 (by decide) (by decide)⟩

/-- C7: a reassignment of an assigned reviewer on an open PR whose
candidate pool (active teammates of the old reviewer, minus the author,
the old reviewer and every currently assigned reviewer) is empty fails
with NoCandidate and leaves the state unchanged. -/
theorem reassign_empty_pool_fails {db : DB} {prID old : String} {cand : List String}
    {row : PullRequestRow} {rv : User}
    (hfind : db.pull_requests.find? (fun r => r.id == prID) = some row)
    (hopen : row.status = .opened)
    (hassigned : old ∈ reviewersOf db prID)
    (hrv : db.users.find? (fun v => v.id == old) = some rv)
    (htm : rv.teamName ≠ "")
    (hperm : cand.Perm (reassignPool db rv.teamName old row.authorID))
    (hempty : ∀ x ∈ reassignPool db rv.teamName old row.authorID,
      x ∈ reviewersOf db prID) :
    Repository.ReassignReviewer db prID old cand = (db, .error .noCandidate) := by
  have hload := loadPullRequest_of_find hfind
  have hcontains : (sortStrings (reviewersOf db prID)).contains old = true := by
    simpa using mem_sortStrings.mpr hassigned
  have hfilter : cand.filter
      (fun c => !((sortStrings (reviewersOf db prID)).contains c)) = [] := by
    rw [List.filter_eq_nil_iff]
    intro c hc
    have hcp : c ∈ reassignPool db rv.teamName old row.authorID := hperm.mem_iff.mp hc
    have hcr : c ∈ reviewersOf db prID := hempty c hcp
    simp [mem_sortStrings.mpr hcr]
  have hdec : reassignDecide db prID old cand = Except.error Err.noCandidate := by
    unfold reassignDecide
    rw [hload]
    simp only
    rw [if_neg (show ¬(row.status = PullRequestStatus.merged) by simp [hopen])]
    rw [hcontains]
    simp only [Bool.not_true, Bool.false_eq_true, if_false]
    rw [getUser_of_find hrv]
    simp only
    rw [if_neg htm, hfilter]
    simp
  simp [ReassignReviewer, hdec]

/-- The C7 witness state: two-person team, the only non-author member
is the assigned reviewer. -/
def dbC7 : DB :=
  { teams := ["t"]
    users := [{ id := "e", username := "eve", teamName := "t", isActive := true },
              { id := "f", username := "frank", teamName := "t", isActive := true }]
    pull_requests := [{ id := "p1", name := "nm", authorID := "e",
                        status := .opened, createdAt := 0, mergedAt := none }]
    pull_request_reviewers := [("p1", "f")] }

/-- The open row of the C7 witness. -/
def rowC7 : PullRequestRow :=
  { id := "p1", name := "nm", authorID := "e", status := .opened,
    createdAt := 0, mergedAt := none }

/-- Frank, the old reviewer of the C7 witness. -/
def frankC7 : User := { id := "f", username := "frank", teamName := "t", isActive := true }

theorem reassign_empty_pool_fails_witness :
    dbC7.pull_requests.find? (fun r => r.id == "p1") = some rowC7 ∧
      rowC7.status = .opened ∧
      "f" ∈ reviewersOf dbC7 "p1" ∧
      dbC7.users.find? (fun v => v.id == "f") = some frankC7 ∧
      Repository.reassignPool dbC7 "t" "f" "e" = [] ∧
      Repository.ReassignReviewer dbC7 "p1" "f" [] = (dbC7, .error .noCandidate) := by
  refine ⟨by decide, by decide, by decide, by decide, by decide, ?_⟩
  exact @reassign_empty_pool_fails dbC7 "p1" "f" [] rowC7 frankC7 (by decide) (by decide)
    (by decide) (by decide) (by decide) (by decide) (by decide)

end PRService

/-! ## Claim C3: successful reassignment yields a fresh, distinct reviewer -/

namespace PRService

open Repository

/-- C3: on every successful ReassignReviewer call, the returned PR's
reviewer set no longer contains the old reviewer, and the returned new
reviewer id differs from the PR's author, from the old reviewer, and
from every reviewer previously assigned (hence from every remaining
co-reviewer). -/
theorem reassign_success_distinct {db db1 : DB} {prID old : String} {cand : List String}
    {row : PullRequestRow} {rv : User} {pr1 : PullRequest} {repl : String}
    (hfind : db.pull_requests.find? (fun r => r.id == prID) = some row)
    (hrv : db.users.find? (fun v => v.id == old) = some rv)
    (hperm : cand.Perm (reassignPool db rv.teamName old row.authorID))
    (hok : Repository.ReassignReviewer db prID old cand = (db1, .ok (pr1, repl))) :
    old ∉ pr1.assignedReviewers ∧ repl ≠ row.authorID ∧ repl ≠ old ∧
      (∀ c ∈ reviewersOf db prID, repl ≠ c) ∧ repl ∈ pr1.assignedReviewers := by
  obtain ⟨pr0, hd, ha, hl⟩ := ReassignReviewer_ok_inv hok
  obtain ⟨hload, hm, hold, ⟨rv2, hgu2, htm2⟩, hmemc, hnotasg, hrne⟩ :=
    reassignDecide_ok_inv hd
  have hrv2 : rv2 = rv := by
    have := getUser_ok hgu2
    rw [this] at hrv
    exact Option.some.inj hrv
  subst hrv2
  have hreplpool : repl ∈ reassignPool db rv2.teamName old row.authorID :=
    hperm.mem_iff.mp hmemc
  obtain ⟨u2, hu2, hu2id, hu2t, hu2a, hreplold, hreplauthor⟩ := mem_reassignPool hreplpool
  obtain ⟨row2, hfind2, hpr0⟩ := loadPullRequest_ok_inv hload
  have hrow2 : row2 = row := by
    rw [hfind2] at hfind
    exact Option.some.inj hfind
  subst hrow2
  have hreplrev : repl ∉ reviewersOf db prID := by
    rw [hpr0] at hnotasg
    exact fun hh => hnotasg (mem_sortStrings.mpr hh)
  have hdba := reassignApply_ok_inv ha
  have hedges_eq : db1.pull_request_reviewers =
      (db.pull_request_reviewers.filter
        (fun e => !(e.1 == prID && e.2 == old))) ++ [(prID, repl)] := by
    rw [hdba]
  obtain ⟨hrevpr, hrevother⟩ := reviewersOf_delete_insert hedges_eq
  obtain ⟨row3, hfind3, hpr1⟩ := loadPullRequest_ok_inv hl
  have hmem1 : ∀ x, x ∈ pr1.assignedReviewers ↔
      (x ∈ (reviewersOf db prID).filter (fun c => !(c == old)) ∨ x = repl) := by
    intro x
    rw [hpr1]
    simp only
    rw [mem_sortStrings, hrevpr]
    simp
  refine ⟨?_, hreplauthor, hreplold, ?_, ?_⟩
  · intro hmem
    rcases (hmem1 old).mp hmem with h1 | h2
    · have := List.mem_filter.mp h1
      simp at this
    · exact hreplold h2.symm
  · intro c hc hrc
    rw [hrc] at hreplrev
    exact hreplrev hc
  · exact (hmem1 repl).mpr (Or.inr rfl)

/-- The C3 witness state: PR p1 by a with reviewers {b, c}; the team
also has d (active). -/
def dbC3 : DB :=
  { teams := ["t"]
    users := [{ id := "a", username := "alice", teamName := "t", isActive := true },
              { id := "b", username := "bob", teamName := "t", isActive := true },
              { id := "c", username := "carol", teamName := "t", isActive := true },
              { id := "d", username := "dave", teamName := "t", isActive := true }]
    pull_requests := [{ id := "p1", name := "nm", authorID := "a",
                        status := .opened, createdAt := 0, mergedAt := none }]
    pull_request_reviewers := [("p1", "b"), ("p1", "c")] }

/-- The open row of the C3 witness. -/
def rowC3 : PullRequestRow :=
  { id := "p1", name := "nm", authorID := "a", status := .opened,
    createdAt := 0, mergedAt := none }

/-- Bob, the old reviewer of the C3 witness. -/
def bobC3 : User := { id := "b", username := "bob", teamName := "t", isActive := true }

/-- The post-reassignment state of the C3 witness. -/
def dbC3a : DB :=
  { teams := ["t"]
    users := [{ id := "a", username := "alice", teamName := "t", isActive := true },
              { id := "b", username := "bob", teamName := "t", isActive := true },
              { id := "c", username := "carol", teamName := "t", isActive := true },
              { id := "d", username := "dave", teamName := "t", isActive := true }]
    pull_requests := [rowC3]
    pull_request_reviewers := [("p1", "c"), ("p1", "d")] }

/-- The updated PR of the C3 witness: reviewers {c, d}. -/
def prC3 : PullRequest :=
  { id := "p1", name := "nm", authorID := "a", status := .opened,
    assignedReviewers := ["c", "d"], createdAt := 0, mergedAt := none }

theorem reassign_success_distinct_witness :
    Repository.ReassignReviewer dbC3 "p1" "b" ["c", "d"] = (dbC3a, .ok (prC3, "d")) ∧
      ("b" ∉ prC3.assignedReviewers ∧ "d" ≠ rowC3.authorID ∧ "d" ≠ "b" ∧
        (∀ c ∈ reviewersOf dbC3 "p1", "d" ≠ c) ∧ "d" ∈ prC3.assignedReviewers) := by
  refine ⟨by decide, ?_⟩
  exact @reassign_success_distinct dbC3 dbC3a "p1" "b" ["c", "d"] rowC3 bobC3 prC3 "d"
    (by decide) (by decide) (by decide) (by decide)

end PRService

/-! ## Claims C4 and C5: reviewer selection at PR creation -/

namespace PRService

open Repository

/-- C4: on every successful CreatePullRequest with an existing author,
each assigned reviewer is an active user of the author's team distinct
from the author; in particular an inactive member is never selected. -/
theorem create_reviewers_subset {db db1 : DB} {id name authorID : String}
    {sel : List String} {now : Nat} {author : User} {pr : PullRequest}
    (hauthor : db.users.find? (fun v => v.id == authorID) = some author)
    (hperm : sel.Perm (eligibleReviewers db author.teamName authorID))
    (hok : Repository.CreatePullRequest db id name authorID sel now = (db1, .ok pr)) :
    ∀ r ∈ pr.assignedReviewers, ∃ u ∈ db.users,
      u.id = r ∧ u.teamName = author.teamName ∧ u.isActive = true ∧ r ≠ authorID := by
  obtain ⟨author2, hg, ht, hnone, hnew, hnd, hprs, hrv, hteams, husers, hpr⟩ :=
    CreatePullRequest_ok_inv hok
  have hauth2 : author2 = author := by
    have := getUser_ok hg
    rw [this] at hauthor
    exact Option.some.inj hauthor
  subst hauth2
  intro r hr
  rw [hpr] at hr
  simp only at hr
  have hsel : r ∈ sel := List.take_subset 2 sel hr
  have helig : r ∈ eligibleReviewers db author2.teamName authorID :=
    hperm.mem_iff.mp hsel
  exact mem_eligibleReviewers helig

/-- The C4 witness state: team t with active a, b and inactive c. -/
def dbC4 : DB :=
  { teams := ["t"]
    users := [{ id := "a", username := "alice", teamName := "t", isActive := true },
              { id := "b", username := "bob", teamName := "t", isActive := true },
              { id := "c", username := "charlie", teamName := "t", isActive := false }]
    pull_requests := []
    pull_request_reviewers := [] }

/-- Alice, the author in the C4 witness. -/
def aliceC4 : User := { id := "a", username := "alice", teamName := "t", isActive := true }

/-- The created PR of the C4 witness: only b is eligible. -/
def prC4 : PullRequest :=
  { id := "p1", name := "nm", authorID := "a", status := .opened,
    assignedReviewers := ["b"], createdAt := 0, mergedAt := none }

theorem create_reviewers_subset_witness :
    Repository.CreatePullRequest dbC4 "p1" "nm" "a" ["b"] 0 =
      ((Repository.CreatePullRequest dbC4 "p1" "nm" "a" ["b"] 0).1, .ok prC4) ∧
      (∀ r ∈ prC4.assignedReviewers, ∃ u ∈ dbC4.users,
        u.id = r ∧ u.teamName = aliceC4.teamName ∧ u.isActive = true ∧ r ≠ "a") := by
  refine ⟨by decide, ?_⟩
  exact @create_reviewers_subset dbC4 (Repository.CreatePullRequest dbC4 "p1" "nm" "a"
      ["b"] 0).1 "p1" "nm" "a" ["b"] 0 aliceC4 prC4
    (by decide) (by decide) (by decide)

/-- The C5 counterexample state: a team of exactly two members where
the non-author member is inactive. -/
def dbC5 : DB :=
  { teams := ["t"]
    users := [{ id := "a", username := "alice", teamName := "t", isActive := true },
              { id := "b", username := "bob", teamName := "t", isActive := false }]
    pull_requests := []
    pull_request_reviewers := [] }

/-- The PR created in the C5 counterexample: zero reviewers. -/
def prC5 : PullRequest :=
  { id := "p1", name := "nm", authorID := "a", status := .opened,
    assignedReviewers := [], createdAt := 0, mergedAt := none }

/-- C5 counterexample: in a team of size 2 CreatePullRequest can
succeed with zero reviewers (the non-author member is inactive), so
"size 2 yields exactly one reviewer" is false as stated.  The empty
selection list is a legitimate query outcome: it is a permutation of
the eligible-reviewer rows. -/
theorem create_team_of_two_zero_reviewers :
    (dbC5.users.filter (fun u => u.teamName == "t")).length = 2 ∧
      ([] : List String).Perm (Repository.eligibleReviewers dbC5 "t" "a") ∧
      (Repository.CreatePullRequest dbC5 "p1" "nm" "a" [] 0).2 = .ok prC5 ∧
      prC5.assignedReviewers.length = 0 := by decide

/-- C5 amended: a successful CreatePullRequest assigns exactly
min 2 (number of active members of the author's team other than the
author) reviewers.  Hence: team of size 1 (author only) gives 0; team
of size 2 gives 1 exactly when the other member is active; team of
size at least 3 gives at most 2, bounded by the active-member count. -/
theorem create_reviewer_count {db db1 : DB} {id name authorID : String}
    {sel : List String} {now : Nat} {author : User} {pr : PullRequest}
    (hauthor : db.users.find? (fun v => v.id == authorID) = some author)
    (hperm : sel.Perm (eligibleReviewers db author.teamName authorID))
    (hok : Repository.CreatePullRequest db id name authorID sel now = (db1, .ok pr)) :
    pr.assignedReviewers.length =
      min 2 (eligibleReviewers db author.teamName authorID).length := by
  obtain ⟨author2, hg, ht, hnone, hnew, hnd, hprs, hrv, hteams, husers, hpr⟩ :=
    CreatePullRequest_ok_inv hok
  have hauth2 : author2 = author := by
    have := getUser_ok hg
    rw [this] at hauthor
    exact Option.some.inj hauthor
  subst hauth2
  rw [hpr]
  simp only
  rw [List.length_take, hperm.length_eq]

theorem create_reviewer_count_witness :
    Repository.CreatePullRequest dbC4 "p1" "nm" "a" ["b"] 0 =
      ((Repository.CreatePullRequest dbC4 "p1" "nm" "a" ["b"] 0).1, .ok prC4) ∧
      prC4.assignedReviewers.length =
        min 2 (Repository.eligibleReviewers dbC4 aliceC4.teamName "a").length := by
  refine ⟨by decide, ?_⟩
  exact @create_reviewer_count dbC4 (Repository.CreatePullRequest dbC4 "p1" "nm" "a"
      ["b"] 0).1 "p1" "nm" "a" ["b"] 0 aliceC4 prC4
    (by decide) (by decide) (by decide)

end PRService

/-! ## Claim C8: GetPRStats counts partition the total -/

namespace PRService

open Repository

/-- C8: in every state, PRsWithReviewers + PRsWithoutReviewers equals
TotalPRs, and OpenPRs + MergedPRs equals TotalPRs. -/
theorem pr_stats_partition (db : DB) :
    (Repository.GetPRStats db).PRsWithReviewers +
        (Repository.GetPRStats db).PRsWithoutReviewers =
      (Repository.GetPRStats db).TotalPRs ∧
    (Repository.GetPRStats db).OpenPRs + (Repository.GetPRStats db).MergedPRs =
      (Repository.GetPRStats db).TotalPRs := by
  constructor
  · exact filter_not_partition db.pull_requests (fun r => hasReviewer db r.id)
  · have hmer : db.pull_requests.filter (fun r => r.status == PullRequestStatus.merged) =
        db.pull_requests.filter (fun r => !(r.status == PullRequestStatus.opened)) := by
      apply List.filter_congr
      intro r _
      cases hst : r.status <;> simp [hst]
    show (db.pull_requests.filter (fun r => r.status == PullRequestStatus.opened)).length +
        (db.pull_requests.filter (fun r => r.status == PullRequestStatus.merged)).length =
      db.pull_requests.length
    rw [hmer]
    exact filter_not_partition db.pull_requests (fun r => r.status == PullRequestStatus.opened)

end PRService

/-! ## Claim C10: service CreateTeam rejects an empty member list -/

namespace PRService

/-- C10: the service-layer CreateTeam fails with the "team must have at
least one member" validation error whenever the member list is empty,
before any name or availability check, and creates nothing (the state
is returned unchanged). -/
theorem service_createTeam_empty_members {db : DB} {team : Team}
    (h : team.members = []) :
    Service.CreateTeam db team =
      (db, .error (.validation "team must have at least one member")) := by
  unfold Service.CreateTeam
  rw [h]
  simp

/-- The C10 witness state: the name "x" is available. -/
def dbC10 : DB :=
  { teams := ["other"], users := [], pull_requests := [], pull_request_reviewers := [] }

/-- The C10 witness input team: available name, no members. -/
def teamC10 : Team := { name := "x", members := [] }

theorem service_createTeam_empty_members_witness :
    teamC10.members = [] ∧ dbC10.teams.contains "x" = false ∧
      Service.CreateTeam dbC10 teamC10 =
        (dbC10, .error (.validation "team must have at least one member")) :=
  ⟨rfl, by decide, service_createTeam_empty_members rfl⟩

end PRService

/-! ## Claim C9: the reassignment read-modify-write race -/

namespace PRService

open Repository

/-- The initial state of the C9 race: PR p1 by a, single reviewer b,
and two further active teammates c and d. -/
def dbC9 : DB :=
  { teams := ["t"]
    users := [{ id := "a", username := "alice", teamName := "t", isActive := true },
              { id := "b", username := "bob", teamName := "t", isActive := true },
              { id := "c", username := "carol", teamName := "t", isActive := true },
              { id := "d", username := "dave", teamName := "t", isActive := true }]
    pull_requests := [{ id := "p1", name := "nm", authorID := "a",
                        status := .opened, createdAt := 0, mergedAt := none }]
    pull_request_reviewers := [("p1", "b")] }

/-- The state after call 1 committed (b replaced by c). -/
def dbC9one : DB :=
  { teams := ["t"]
    users := [{ id := "a", username := "alice", teamName := "t", isActive := true },
              { id := "b", username := "bob", teamName := "t", isActive := true },
              { id := "c", username := "carol", teamName := "t", isActive := true },
              { id := "d", username := "dave", teamName := "t", isActive := true }]
    pull_requests := [{ id := "p1", name := "nm", authorID := "a",
                        status := .opened, createdAt := 0, mergedAt := none }]
    pull_request_reviewers := [("p1", "c")] }

/-- The state after call 2 also committed (its DELETE matched nothing,
its INSERT added d): both replacements are now present. -/
def dbC9two : DB :=
  { teams := ["t"]
    users := [{ id := "a", username := "alice", teamName := "t", isActive := true },
              { id := "b", username := "bob", teamName := "t", isActive := true },
              { id := "c", username := "carol", teamName := "t", isActive := true },
              { id := "d", username := "dave", teamName := "t", isActive := true }]
    pull_requests := [{ id := "p1", name := "nm", authorID := "a",
                        status := .opened, createdAt := 0, mergedAt := none }]
    pull_request_reviewers := [("p1", "c"), ("p1", "d")] }

/-- The PR as read by both calls before either write (reviewer b). -/
def prC9read : PullRequest :=
  { id := "p1", name := "nm", authorID := "a", status := .opened,
    assignedReviewers := ["b"], createdAt := 0, mergedAt := none }

/-- The PR returned by call 1 (reviewer c). -/
def prC9one : PullRequest :=
  { id := "p1", name := "nm", authorID := "a", status := .opened,
    assignedReviewers := ["c"], createdAt := 0, mergedAt := none }

/-- The PR reloaded by call 2 after its write (reviewers c and d). -/
def prC9two : PullRequest :=
  { id := "p1", name := "nm", authorID := "a", status := .opened,
    assignedReviewers := ["c", "d"], createdAt := 0, mergedAt := none }

/-- C9 fails on the code: the read phase of ReassignReviewer runs
outside the write transaction and the transaction never re-checks that
the (p1, b) edge still exists, so under the interleaving read1, read2,
write1, write2 both concurrent calls succeed and both insert a
replacement.  Here: both read phases decide against the initial state
(call 1 picks c, call 2 picks d, each candidate list a legitimate
permutation of the candidate pool); call 1 completes; call 2's write
then also commits (its DELETE of (p1, b) silently matches zero rows)
and its reload succeeds, returning reviewers {c, d}.  Neither call
observes NotAssigned, contradicting the claim that the loser must. -/
theorem reassign_race_both_succeed :
    (["c", "d"] : List String).Perm (Repository.reassignPool dbC9 "t" "b" "a") ∧
      (["d", "c"] : List String).Perm (Repository.reassignPool dbC9 "t" "b" "a") ∧
      Repository.reassignDecide dbC9 "p1" "b" ["c", "d"] = .ok (prC9read, "c") ∧
      Repository.reassignDecide dbC9 "p1" "b" ["d", "c"] = .ok (prC9read, "d") ∧
      Repository.ReassignReviewer dbC9 "p1" "b" ["c", "d"] =
        (dbC9one, .ok (prC9one, "c")) ∧
      Repository.reassignApply dbC9one "p1" "b" "d" = (dbC9two, .ok ()) ∧
      Repository.loadPullRequest dbC9two "p1" = .ok prC9two ∧
      prC9two.assignedReviewers = ["c", "d"] := by decide

end PRService
